import Mathlib

/-!
Verification of the dialect-aware database access layer of `nvim-dbee`
(source file `dbee/clients/redshift.go`).

The Go source is shallowly embedded:

* `models.Layout` becomes the inductive `Layout` (its `Children` field makes
  it a nested inductive over `List`).
* A Go row `[]any` becomes `List CellValue`, where `CellValue.str s` is a
  string cell and `CellValue.other` stands for any non-string value; the
  unchecked Go type assertion `row[i].(string)` becomes `goStringAssert`,
  which yields `none` exactly when Go would panic (index out of range or
  failed assertion).
* The result stream consumed by `fetchPsqlLayouts` becomes a finite list of
  `NextResult`s, one per call of `rows.Next()`; each carries the returned
  row (`none` = Go `nil`) and error.  Reading past the end of the list is
  treated like a `nil` row (streams are finite and end with a `nil` signal).
* The Go map `children : map[string][]models.Layout` becomes an
  insertion-ordered association list `ChildMap`; `insertChild` models
  `children[schema] = append(children[schema], node)`.  Go's map iteration
  order in the final emission loop is unspecified, so the embedding fixes
  first-insertion order as a deterministic refinement; every theorem below
  that depends on the emission only uses order-insensitive facts
  (membership, `Nodup`, counts) except where a concrete run of this
  refinement is evaluated.
* `RedshiftClient.Query`'s connection lifecycle (acquire, the `defer`red
  conditional release, and the hand-off of the close callback to the
  returned stream) becomes `Query`, which returns the ordered list of
  connection events the Go function performs before returning, plus the
  error flag of its return value.
-/

namespace Dbee

/-- `models.LayoutType`: the node kind of a layout node.  `noneTy` is the
source's `LayoutTypeNone` (the "untyped" kind, also used for schema
groups). -/
inductive LayoutType where
  | table
  | view
  | noneTy
deriving DecidableEq, Repr

/-- `models.Layout`: name, parent schema, originating database tag, node
kind, and children. -/
inductive Layout : Type where
  | mk (name schema database : String) (typ : LayoutType) (children : List Layout)
deriving Repr

def Layout.name : Layout → String
  | .mk n _ _ _ _ => n

def Layout.schema : Layout → String
  | .mk _ s _ _ _ => s

def Layout.database : Layout → String
  | .mk _ _ d _ _ => d

def Layout.typ : Layout → LayoutType
  | .mk _ _ _ t _ => t

def Layout.children : Layout → List Layout
  | .mk _ _ _ _ c => c

/-- One dynamically-typed column value of a row (`any` in Go): either a
string or anything else. -/
inductive CellValue where
  | str (s : String)
  | other
deriving DecidableEq, Repr

/-- A row as handed out by the result stream (`models.Row`, i.e. `[]any`). -/
abbrev Row := List CellValue

/-- What one call of `rows.Next()` returns: a row (Go `nil` = `none`) and an
error (Go `nil` = `none`). -/
structure NextResult where
  row : Option Row
  err : Option String
deriving DecidableEq, Repr

/-- The registered client-type tag, `var redshiftClient = "redshift"`. -/
def redshiftClient : String := "redshift"

/-- The Go expression `row[i].(string)`: `some s` when the index is in range
and the value is a string, `none` when Go would panic (index out of range
or failed type assertion). -/
def goStringAssert (row : Row) (i : Nat) : Option String :=
  match row.get? i with
  | some (CellValue.str s) => some s
  | _ => none

/-- The accumulator `children := make(map[string][]models.Layout)`, as an
insertion-ordered association list. -/
abbrev ChildMap := List (String × List Layout)

/-- `children[schema] = append(children[schema], node)`: append to the
existing entry, or add a new key (at the end, recording first-insertion
order). -/
def insertChild : ChildMap → String → Layout → ChildMap
  | [], k, v => [(k, [v])]
  | (k1, vs) :: rest, k, v =>
    if k1 = k then (k1, vs ++ [v]) :: rest else (k1, vs) :: insertChild rest k v

/-- `getLayoutType` from the source: classify an explicit object-type
string. -/
def getLayoutType (typ : String) : LayoutType :=
  if typ = "TABLE" then LayoutType.table
  else if typ = "VIEW" then LayoutType.view
  else LayoutType.noneTy

/-- The loop body of `fetchPsqlLayouts` applied to one non-nil, error-free
row: read `row[0].(string)` and `row[1].(string)`, branch on the dialect,
for redshift also read `row[2].(string)`, and append the leaf node to the
schema's entry.  `none` models a Go panic. -/
def processRow (dbType : String) (m : ChildMap) (row : Row) : Option ChildMap :=
  match goStringAssert row 0, goStringAssert row 1 with
  | some schema, some table =>
    if dbType = redshiftClient then
      match goStringAssert row 2 with
      | some typ =>
        some (insertChild m schema (Layout.mk table schema dbType (getLayoutType typ) []))
      | none => none
    else
      some (insertChild m schema (Layout.mk table schema dbType LayoutType.table []))
  | _, _ => none

/-- The emission loop of `fetchPsqlLayouts`: one schema-group node per map
entry, with `Name = k`, `Schema = k`, `Database = dbType`,
`Type = LayoutTypeNone` and the accumulated children. -/
def emitLayouts (dbType : String) (m : ChildMap) : List Layout :=
  m.map fun kv => Layout.mk kv.1 kv.1 dbType LayoutType.noneTy kv.2

/-- Possible outcomes of running `fetchPsqlLayouts`: a returned layout list,
a returned error, or a runtime panic (`crash`). -/
inductive FetchOutcome where
  | ok (layout : List Layout)
  | err (e : String)
  | crash
deriving Repr

/-- The drain loop of `fetchPsqlLayouts` over the remaining stream.  Source
order of the checks is kept: `row == nil` breaks the loop BEFORE `err` is
inspected; only then is a non-nil error returned; otherwise the row is
processed. -/
def fetchGo (dbType : String) : List NextResult → ChildMap → FetchOutcome
  | [], m => FetchOutcome.ok (emitLayouts dbType m)
  | r :: rest, m =>
    match r.row with
    | none => FetchOutcome.ok (emitLayouts dbType m)
    | some row =>
      match r.err with
      | some e => FetchOutcome.err e
      | none =>
        match processRow dbType m row with
        | none => FetchOutcome.crash
        | some m1 => fetchGo dbType rest m1

/-- `fetchPsqlLayouts(rows, dbType)` from the source. -/
def fetchPsqlLayouts (rows : List NextResult) (dbType : String) : FetchOutcome :=
  fetchGo dbType rows []

/-- The SQL text issued by `RedshiftClient.Layout` (whitespace-normalized):
note that trimming of the schema and name columns happens HERE, server-side,
not in the Go layout builder. -/
def layoutQuery : String :=
  "SELECT trim(n.nspname) AS schema_name, trim(c.relname) AS table_name, CASE WHEN c.relkind = \x27v\x27 THEN \x27VIEW\x27 ELSE \x27TABLE\x27 END AS table_type FROM pg_class AS c JOIN pg_namespace AS n ON c.relnamespace = n.oid WHERE n.nspname NOT IN (\x27information_schema\x27, \x27pg_catalog\x27);"

/-- Number of occurrences of `needle` as a substring (at distinct start
positions). -/
def occurrences (needle : List Char) : List Char → Nat
  | [] => 0
  | c :: t => (if needle.isPrefixOf (c :: t) then 1 else 0) + occurrences needle t

/-- Connection-lifecycle events observable during `RedshiftClient.Query`. -/
inductive ConnEvent where
  | acquire
  | closeConn
  | setCallback
deriving DecidableEq, Repr

/-- `RedshiftClient.Query`'s control flow, as the ordered list of connection
events performed before the function returns, together with whether the
returned error is non-nil.

Source: `con, err := c.c.Conn()` (on failure return the error, nothing
acquired); `cb := func() { con.Close() }`;
`defer func() { if err != nil { cb() } }()` — the deferred closure reads the
final value of `err`, so it closes the connection exactly on the failure
path, and it runs before `Query` returns to its caller;
`rows, err := con.Query(query)` (on failure the defer fires `cb`);
on success `rows.SetCallback(cb)` hands the release to the stream. -/
def Query (connFails execFails : Bool) : List ConnEvent × Bool :=
  if connFails then ([], true)
  else if execFails then ([ConnEvent.acquire, ConnEvent.closeConn], true)
  else ([ConnEvent.acquire, ConnEvent.setCallback], false)

/-! ## Well-formed metadata streams

A well-formed input row sequence is a finite list of all-string rows,
delivered without errors and terminated by the stream's `nil`-row signal.
`streamOf` builds such a stream from (schema, name, type) triples,
`streamOf2` from (schema, name) pairs for dialects without explicit
typing. -/

/-- A metadata row as string values: (schema, object name, object type). -/
abbrev MetaRow := String × String × String

def rowOf (r : MetaRow) : NextResult :=
  ⟨some [CellValue.str r.1, CellValue.str r.2.1, CellValue.str r.2.2], none⟩

def streamOf (rs : List MetaRow) : List NextResult :=
  rs.map rowOf ++ [⟨none, none⟩]

def rowOf2 (r : String × String) : NextResult :=
  ⟨some [CellValue.str r.1, CellValue.str r.2], none⟩

def streamOf2 (rs : List (String × String)) : List NextResult :=
  rs.map rowOf2 ++ [⟨none, none⟩]

/-- The leaf node `fetchPsqlLayouts` builds for the row `r`: for the
redshift dialect the kind comes from `getLayoutType` on the type column,
otherwise it is unconditionally `table`. -/
def leafOf (dbType : String) (r : MetaRow) : Layout :=
  Layout.mk r.2.1 r.1 dbType
    (if dbType = redshiftClient then getLayoutType r.2.2 else LayoutType.table) []

/-- Folding the loop body over a list of well-formed rows. -/
def buildMap (dbType : String) (m : ChildMap) : List MetaRow → ChildMap
  | [] => m
  | r :: rs => buildMap dbType (insertChild m r.1 (leafOf dbType r)) rs

/-! ## Association-map lemmas -/

/-- First-match lookup in a `ChildMap` (Go map read). -/
def lookupCM : ChildMap → String → Option (List Layout)
  | [], _ => none
  | (k1, vs) :: rest, k => if k1 = k then some vs else lookupCM rest k

/-- The keys of a `ChildMap`. -/
def keysCM (m : ChildMap) : List String := m.map Prod.fst

theorem lookupCM_insertChild (m : ChildMap) (k : String) (v : Layout) (k1 : String) :
    lookupCM (insertChild m k v) k1 =
      if k1 = k then some ((lookupCM m k).getD [] ++ [v]) else lookupCM m k1 := by
  induction m with
  | nil =>
    by_cases h : k1 = k
    · simp [insertChild, lookupCM, h]
    · simp [insertChild, lookupCM, h, Ne.symm h]
  | cons kv rest ih =>
    obtain ⟨k2, vs⟩ := kv
    by_cases h2 : k2 = k
    · subst h2
      by_cases h1 : k1 = k2
      · subst h1
        simp [insertChild, lookupCM]
      · simp [insertChild, lookupCM, h1, Ne.symm h1]
    · by_cases h1 : k1 = k2
      · subst h1
        simp [insertChild, lookupCM, h2, Ne.symm h2, ih]
      · simp [insertChild, lookupCM, h2, h1, Ne.symm h1, ih]

theorem keysCM_insertChild (m : ChildMap) (k : String) (v : Layout) :
    keysCM (insertChild m k v) =
      if k ∈ keysCM m then keysCM m else keysCM m ++ [k] := by
  induction m with
  | nil => simp [insertChild, keysCM]
  | cons kv rest ih =>
    obtain ⟨k2, vs⟩ := kv
    by_cases h2 : k2 = k
    · subst h2
      simp [insertChild, keysCM]
    · simp only [insertChild, if_neg h2, keysCM, List.map_cons] at ih ⊢
      rw [ih]
      by_cases hm : k ∈ List.map Prod.fst rest <;>
        simp [hm, Ne.symm h2, List.mem_cons]

theorem mem_keysCM_insertChild (m : ChildMap) (k : String) (v : Layout) (k1 : String) :
    k1 ∈ keysCM (insertChild m k v) ↔ k1 ∈ keysCM m ∨ k1 = k := by
  rw [keysCM_insertChild]
  by_cases hm : k ∈ keysCM m
  · simp only [if_pos hm]
    constructor
    · exact Or.inl
    · rintro (h | h)
      · exact h
      · exact h ▸ hm
  · simp [if_neg hm, List.mem_append]

theorem nodup_keysCM_insertChild (m : ChildMap) (k : String) (v : Layout)
    (h : (keysCM m).Nodup) : (keysCM (insertChild m k v)).Nodup := by
  rw [keysCM_insertChild]
  by_cases hm : k ∈ keysCM m
  · simpa [hm] using h
  · simp only [if_neg hm]
    exact List.Nodup.append h (List.nodup_singleton k) (by simpa using hm)

theorem lookupCM_isSome_iff_mem_keysCM (m : ChildMap) (k : String) :
    (lookupCM m k).isSome = true ↔ k ∈ keysCM m := by
  induction m with
  | nil => simp [lookupCM, keysCM]
  | cons kv rest ih =>
    obtain ⟨k1, vs⟩ := kv
    by_cases h : k1 = k
    · subst h
      simp [lookupCM, keysCM]
    · simp [lookupCM, keysCM, h, Ne.symm h, ih]

theorem lookupCM_eq_of_mem_nodup (m : ChildMap) (k : String) (vs : List Layout)
    (hnd : (keysCM m).Nodup) (hmem : (k, vs) ∈ m) : lookupCM m k = some vs := by
  induction m with
  | nil => cases hmem
  | cons kv rest ih =>
    obtain ⟨k1, vs1⟩ := kv
    simp only [keysCM, List.map_cons, List.nodup_cons] at hnd
    rcases List.mem_cons.mp hmem with h | h
    · injection h with h1 h2
      subst h1; subst h2
      simp [lookupCM]
    · have hk1 : k1 ≠ k := by
        intro hEq
        subst hEq
        exact hnd.1 (by
          have : k1 ∈ keysCM rest := List.mem_map_of_mem Prod.fst h
          simpa [keysCM] using this)
      simp only [lookupCM, if_neg hk1]
      exact ih hnd.2 h

/-! ## The drain loop on well-formed streams -/

theorem processRow_rowOf (dbType : String) (m : ChildMap) (r : MetaRow) :
    processRow dbType m ((rowOf r).row.getD []) =
      some (insertChild m r.1 (leafOf dbType r)) := by
  by_cases h : dbType = redshiftClient <;>
    simp [processRow, rowOf, goStringAssert, leafOf, h]

theorem fetchGo_streamOf (dbType : String) (rs : List MetaRow) (m : ChildMap) :
    fetchGo dbType (streamOf rs) m =
      FetchOutcome.ok (emitLayouts dbType (buildMap dbType m rs)) := by
  induction rs generalizing m with
  | nil => simp [streamOf, fetchGo, buildMap]
  | cons r rs ih =>
    have hpr := processRow_rowOf dbType m r
    simp only [rowOf, Option.getD_some] at hpr
    simp only [streamOf, List.map_cons, List.cons_append, fetchGo, rowOf, hpr, buildMap]
    simpa [streamOf] using ih (insertChild m r.1 (leafOf dbType r))

theorem lookupCM_buildMap_getD (dbType : String) (rs : List MetaRow)
    (m : ChildMap) (k : String) :
    (lookupCM (buildMap dbType m rs) k).getD [] =
      (lookupCM m k).getD [] ++ (rs.filter (fun r => r.1 = k)).map (leafOf dbType) := by
  induction rs generalizing m with
  | nil => simp [buildMap]
  | cons r rs ih =>
    simp only [buildMap]
    rw [ih]
    by_cases h : r.1 = k
    · subst h
      simp [lookupCM_insertChild, List.filter_cons]
    · have h1 : ¬ k = r.1 := fun hEq => h hEq.symm
      simp [lookupCM_insertChild, List.filter_cons, h, h1]

theorem mem_keysCM_buildMap (dbType : String) (rs : List MetaRow)
    (m : ChildMap) (k : String) :
    k ∈ keysCM (buildMap dbType m rs) ↔ k ∈ keysCM m ∨ k ∈ rs.map (fun r => r.1) := by
  induction rs generalizing m with
  | nil => simp [buildMap]
  | cons r rs ih =>
    simp only [buildMap, ih, mem_keysCM_insertChild, List.map_cons, List.mem_cons]
    constructor
    · rintro ((h | h) | h)
      · exact Or.inl h
      · exact Or.inr (Or.inl h)
      · exact Or.inr (Or.inr h)
    · rintro (h | h | h)
      · exact Or.inl (Or.inl h)
      · exact Or.inl (Or.inr h)
      · exact Or.inr h

theorem nodup_keysCM_buildMap (dbType : String) (rs : List MetaRow)
    (m : ChildMap) (h : (keysCM m).Nodup) :
    (keysCM (buildMap dbType m rs)).Nodup := by
  induction rs generalizing m with
  | nil => exact h
  | cons r rs ih =>
    exact ih _ (nodup_keysCM_insertChild _ _ _ h)

/-- Total number of leaf nodes stored in the accumulator. -/
def totalLeaves (m : ChildMap) : Nat := (m.map fun kv => kv.2.length).sum

theorem totalLeaves_insertChild (m : ChildMap) (k : String) (v : Layout) :
    totalLeaves (insertChild m k v) = totalLeaves m + 1 := by
  induction m with
  | nil => simp [insertChild, totalLeaves]
  | cons kv rest ih =>
    obtain ⟨k1, vs⟩ := kv
    by_cases h : k1 = k
    · simp [insertChild, totalLeaves, h]
      omega
    · simp only [insertChild, if_neg h, totalLeaves, List.map_cons, List.sum_cons] at ih ⊢
      omega

theorem totalLeaves_buildMap (dbType : String) (rs : List MetaRow) (m : ChildMap) :
    totalLeaves (buildMap dbType m rs) = totalLeaves m + rs.length := by
  induction rs generalizing m with
  | nil => simp [buildMap]
  | cons r rs ih =>
    simp only [buildMap, List.length_cons]
    rw [ih, totalLeaves_insertChild]
    omega

theorem map_name_emitLayouts (dbType : String) (m : ChildMap) :
    (emitLayouts dbType m).map Layout.name = keysCM m := by
  simp [emitLayouts, keysCM, List.map_map, Layout.name, Function.comp]

theorem mem_emitLayouts (dbType : String) (m : ChildMap) (g : Layout) :
    g ∈ emitLayouts dbType m ↔
      ∃ kv ∈ m, g = Layout.mk kv.1 kv.1 dbType LayoutType.noneTy kv.2 := by
  simp only [emitLayouts, List.mem_map]
  constructor
  · rintro ⟨kv, hkv, rfl⟩
    exact ⟨kv, hkv, rfl⟩
  · rintro ⟨kv, hkv, rfl⟩
    exact ⟨kv, hkv, rfl⟩

/-- Characterization of `fetchPsqlLayouts` on a well-formed, error-free
stream of string triples: the run returns a layout list whose group names
are exactly the distinct schema values of the input (each exactly once),
and each group carries its own name as `Schema`, the dialect tag as
`Database`, kind `LayoutTypeNone`, and as children precisely the leaf nodes
of its schema's rows, in input order. -/
theorem fetchPsqlLayouts_spec (dbType : String) (rs : List MetaRow) :
    ∃ l, fetchPsqlLayouts (streamOf rs) dbType = FetchOutcome.ok l ∧
      (l.map Layout.name).Nodup ∧
      (∀ k, k ∈ l.map Layout.name ↔ k ∈ rs.map fun r => r.1) ∧
      (∀ g ∈ l, Layout.schema g = Layout.name g ∧
        Layout.database g = dbType ∧ Layout.typ g = LayoutType.noneTy ∧
        Layout.children g =
          (rs.filter fun r => r.1 = Layout.name g).map (leafOf dbType)) ∧
      (l.map fun g => (Layout.children g).length).sum = rs.length := by
  have hnil : (keysCM ([] : ChildMap)).Nodup := by simp [keysCM]
  have hnd := nodup_keysCM_buildMap dbType rs [] hnil
  refine ⟨emitLayouts dbType (buildMap dbType [] rs), fetchGo_streamOf dbType rs [], ?_, ?_, ?_, ?_⟩
  · rw [map_name_emitLayouts]
    exact hnd
  · intro k
    rw [map_name_emitLayouts, mem_keysCM_buildMap]
    simp [keysCM]
  · intro g hg
    obtain ⟨⟨k, vs⟩, hkv, rfl⟩ := (mem_emitLayouts dbType _ g).mp hg
    refine ⟨rfl, rfl, rfl, ?_⟩
    have hl := lookupCM_eq_of_mem_nodup _ k vs hnd hkv
    have hgd := lookupCM_buildMap_getD dbType rs [] k
    rw [hl] at hgd
    simpa [lookupCM, Layout.children, Layout.name] using hgd
  · have : (emitLayouts dbType (buildMap dbType [] rs)).map
        (fun g => (Layout.children g).length) =
        (buildMap dbType [] rs).map fun kv => kv.2.length := by
      simp [emitLayouts, List.map_map, Layout.children, Function.comp]
    rw [this]
    have := totalLeaves_buildMap dbType rs []
    simpa [totalLeaves] using this

/-- The loop body on a two-column row of a dialect without explicit
typing. -/
theorem processRow_rowOf2 (dbType : String) (h : dbType ≠ redshiftClient)
    (m : ChildMap) (p : String × String) :
    processRow dbType m [CellValue.str p.1, CellValue.str p.2] =
      some (insertChild m p.1 (Layout.mk p.2 p.1 dbType LayoutType.table [])) := by
  simp [processRow, goStringAssert, h]

/-- For a dialect without explicit typing, a two-column stream behaves like
the corresponding three-column stream (the type column is never read). -/
theorem fetchGo_streamOf2 (dbType : String) (h : dbType ≠ redshiftClient)
    (rs : List (String × String)) (m : ChildMap) :
    fetchGo dbType (streamOf2 rs) m =
      FetchOutcome.ok (emitLayouts dbType
        (buildMap dbType m (rs.map fun p => (p.1, p.2, "")))) := by
  induction rs generalizing m with
  | nil => simp [streamOf2, fetchGo, buildMap]
  | cons p rs ih =>
    have hpr := processRow_rowOf2 dbType h m p
    have hleaf : leafOf dbType (p.1, p.2, "") =
        Layout.mk p.2 p.1 dbType LayoutType.table [] := by
      simp [leafOf, h]
    simp only [streamOf2, List.map_cons, List.cons_append, fetchGo, rowOf2, hpr,
      buildMap, hleaf]
    simpa [streamOf2] using
      ih (insertChild m p.1 (Layout.mk p.2 p.1 dbType LayoutType.table []))

/-! ## Claims -/

/-- Claim C1: if `Query` acquires a connection and query execution then
fails, the just-acquired connection is released (its close callback fires,
`closeConn`) before the error return; on success `Query` does not release
the connection itself but hands its release to the returned result stream
via `SetCallback`.  The event list is the ordered record of what `Query`
does before returning, so `[acquire, closeConn]` on the failure path means
the release happens before the error is returned. -/
theorem Query_releases_on_failure (connFails execFails : Bool) :
    ((Query connFails execFails).2 = true →
      ConnEvent.acquire ∈ (Query connFails execFails).1 →
      (Query connFails execFails).1 = [ConnEvent.acquire, ConnEvent.closeConn]) ∧
    ((Query connFails execFails).2 = false →
      ConnEvent.closeConn ∉ (Query connFails execFails).1 ∧
      (Query connFails execFails).1 = [ConnEvent.acquire, ConnEvent.setCallback]) := by
  cases connFails <;> cases execFails <;> exact ⟨by decide, by decide⟩

/-- Witness for C1 at the concrete failing-execution input: the connection
is acquired and then closed before the error return. -/
theorem Query_releases_on_failure_witness :
    (Query false true).1 = [ConnEvent.acquire, ConnEvent.closeConn] :=
  (Query_releases_on_failure false true).1 (by decide) (by decide)

/-- Claim C2 is refuted: a `RowError` reported by `next()` together with a
`nil` row (the usual Go error convention) is NOT propagated —
`fetchPsqlLayouts` checks `row == nil` and breaks out of the loop before it
looks at the error, so the run ends in success with the layouts accumulated
so far.  Concretely, a stream whose first `Next()` returns `(nil, "boom")`
yields `ok []`, not the error. -/
theorem rowError_swallowed_cex :
    fetchPsqlLayouts [⟨none, some "boom"⟩] redshiftClient = FetchOutcome.ok [] ∧
    fetchPsqlLayouts [⟨none, some "boom"⟩] redshiftClient ≠ FetchOutcome.err "boom" :=
  ⟨rfl, fun h => FetchOutcome.noConfusion h⟩

/-- Claim C2 amended: an error returned by `next()` alongside a non-nil row
is propagated to the caller, but an error returned with a nil row is
treated as plain exhaustion and swallowed (the accumulated layouts are
returned as success). -/
theorem rowError_propagation_amended (dbType e : String) (r : Row)
    (rest : List NextResult) :
    fetchPsqlLayouts (⟨some r, some e⟩ :: rest) dbType = FetchOutcome.err e ∧
    fetchPsqlLayouts (⟨none, some e⟩ :: rest) dbType = FetchOutcome.ok [] :=
  ⟨rfl, rfl⟩

/-- Claim C3 is refuted: `fetchPsqlLayouts` does not trim column values —
rows whose schema values differ only by surrounding whitespace end up in
two DIFFERENT groups (`" public "` and `"public"`), not one trimmed
group. -/
theorem no_trim_in_builder_cex :
    fetchPsqlLayouts
        (streamOf [(" public ", "t1", "TABLE"), ("public", "t2", "TABLE")])
        redshiftClient =
      FetchOutcome.ok
        [Layout.mk " public " " public " redshiftClient LayoutType.noneTy
          [Layout.mk "t1" " public " redshiftClient LayoutType.table []],
         Layout.mk "public" "public" redshiftClient LayoutType.noneTy
          [Layout.mk "t2" "public" redshiftClient LayoutType.table []]] ∧
    (" public " : String) ≠ "public" :=
  ⟨rfl, by decide⟩

set_option maxRecDepth 4000 in
/-- Claim C3 amended: the layout builder itself performs NO trimming — it
uses the raw schema value as the grouping key and the raw name value as the
node name, so raw-distinct schema values (even trim-equal ones) form
distinct groups.  The trimming the spec describes is done server-side in
the SQL text issued by `RedshiftClient.Layout`, which wraps the schema and
name columns in `trim(...)` (exactly two `trim(` applications:
`trim(n.nspname)` and `trim(c.relname)`). -/
theorem trim_in_sql_amended :
    occurrences ("trim(".toList) layoutQuery.toList = 2 ∧
    occurrences ("trim(n.nspname)".toList) layoutQuery.toList = 1 ∧
    occurrences ("trim(c.relname)".toList) layoutQuery.toList = 1 ∧
    (∀ s n t : String,
      fetchPsqlLayouts (streamOf [(s, n, t)]) redshiftClient =
        FetchOutcome.ok [Layout.mk s s redshiftClient LayoutType.noneTy
          [Layout.mk n s redshiftClient (getLayoutType t) []]]) ∧
    (∀ s1 s2 n1 n2 t1 t2 : String, s1 ≠ s2 →
      fetchPsqlLayouts (streamOf [(s1, n1, t1), (s2, n2, t2)]) redshiftClient =
        FetchOutcome.ok
          [Layout.mk s1 s1 redshiftClient LayoutType.noneTy
            [Layout.mk n1 s1 redshiftClient (getLayoutType t1) []],
           Layout.mk s2 s2 redshiftClient LayoutType.noneTy
            [Layout.mk n2 s2 redshiftClient (getLayoutType t2) []]]) := by
  refine ⟨by decide, by decide, by decide, fun s n t => rfl, fun s1 s2 n1 n2 t1 t2 h => ?_⟩
  simp only [fetchPsqlLayouts]
  rw [fetchGo_streamOf]
  simp [buildMap, insertChild, h, emitLayouts, leafOf]

/-- Witness for C3's amended claim: the two padded rows from the spec's own
example, with raw-distinct schema values, produce two distinct groups. -/
theorem trim_in_sql_amended_witness :
    fetchPsqlLayouts
        (streamOf [(" public ", "t1", "TABLE"), ("public", "t2", "VIEW")])
        redshiftClient =
      FetchOutcome.ok
        [Layout.mk " public " " public " redshiftClient LayoutType.noneTy
          [Layout.mk "t1" " public " redshiftClient (getLayoutType "TABLE") []],
         Layout.mk "public" "public" redshiftClient LayoutType.noneTy
          [Layout.mk "t2" "public" redshiftClient (getLayoutType "VIEW") []]] :=
  trim_in_sql_amended.2.2.2.2 " public " "public" "t1" "t2" "TABLE" "VIEW" (by decide)

/-- Claim C4 is refuted: a row whose schema column is not a text value does
not produce a `SchemaError`-style error result — the unchecked Go type
assertion `row[0].(string)` panics, modelled as the `crash` outcome, and in
particular no error value is returned. -/
theorem schemaError_cex :
    fetchPsqlLayouts
        [⟨some [CellValue.other, CellValue.str "t1", CellValue.str "TABLE"], none⟩]
        redshiftClient = FetchOutcome.crash ∧
    ¬ ∃ e, fetchPsqlLayouts
        [⟨some [CellValue.other, CellValue.str "t1", CellValue.str "TABLE"], none⟩]
        redshiftClient = FetchOutcome.err e :=
  ⟨rfl, fun h => FetchOutcome.noConfusion h.choose_spec⟩

/-- Claim C4 amended: for every row whose schema column, name column, or
(for the explicitly-typed redshift dialect) type column is absent or not a
text value, `fetchPsqlLayouts` PANICS (unchecked type assertion / index out
of range), modelled as `crash`; the code never constructs a `SchemaError`.
The three conjuncts cover a non-string schema cell, a non-string name cell,
and a missing type column. -/
theorem malformed_row_crashes_amended (rest : List NextResult) (tail : Row)
    (s n : String) :
    fetchPsqlLayouts (⟨some (CellValue.other :: tail), none⟩ :: rest)
        redshiftClient = FetchOutcome.crash ∧
    fetchPsqlLayouts
        (⟨some [CellValue.str s, CellValue.other, CellValue.str n], none⟩ :: rest)
        redshiftClient = FetchOutcome.crash ∧
    fetchPsqlLayouts (⟨some [CellValue.str s, CellValue.str n], none⟩ :: rest)
        redshiftClient = FetchOutcome.crash :=
  ⟨rfl, rfl, rfl⟩

/-- Claim C9: an empty result stream — the first `next()` signals
exhaustion — produces the empty node collection and no error (and hence no
node with an empty name). -/
theorem empty_stream_empty_layout (dbType : String) :
    fetchPsqlLayouts [⟨none, none⟩] dbType = FetchOutcome.ok [] ∧
    fetchPsqlLayouts (streamOf []) dbType = FetchOutcome.ok [] :=
  ⟨rfl, rfl⟩

/-- Claim C5: for every well-formed input row sequence, `fetchPsqlLayouts`
emits exactly one schema-group node per distinct schema key (group names
are `Nodup` and are exactly the schema values occurring in the input), each
carrying as children exactly the leaf nodes accumulated for that schema in
the order the rows were read; on the spec's example rows the output is
exactly the two groups `public` (children `t1` table, `t2` view, in that
order) and `audit` (child `t3` table). -/
theorem grouping_unique_per_schema (dbType : String) (rs : List MetaRow) :
    (∃ l, fetchPsqlLayouts (streamOf rs) dbType = FetchOutcome.ok l ∧
      (l.map Layout.name).Nodup ∧
      (∀ k, k ∈ l.map Layout.name ↔ k ∈ rs.map fun r => r.1) ∧
      (∀ g ∈ l, Layout.children g =
        (rs.filter fun r => r.1 = Layout.name g).map (leafOf dbType))) ∧
    fetchPsqlLayouts
        (streamOf [("public", "t1", "TABLE"), ("public", "t2", "VIEW"),
          ("audit", "t3", "TABLE")]) redshiftClient =
      FetchOutcome.ok
        [Layout.mk "public" "public" redshiftClient LayoutType.noneTy
          [Layout.mk "t1" "public" redshiftClient LayoutType.table [],
           Layout.mk "t2" "public" redshiftClient LayoutType.view []],
         Layout.mk "audit" "audit" redshiftClient LayoutType.noneTy
          [Layout.mk "t3" "audit" redshiftClient LayoutType.table []]] := by
  constructor
  · obtain ⟨l, h1, h2, h3, h4, h5⟩ := fetchPsqlLayouts_spec dbType rs
    exact ⟨l, h1, h2, h3, fun g hg => (h4 g hg).2.2.2⟩
  · rfl

/-- Witness for C5 at the spec's example input. -/
theorem grouping_unique_per_schema_witness :
    fetchPsqlLayouts
        (streamOf [("public", "t1", "TABLE"), ("public", "t2", "VIEW"),
          ("audit", "t3", "TABLE")]) redshiftClient =
      FetchOutcome.ok
        [Layout.mk "public" "public" redshiftClient LayoutType.noneTy
          [Layout.mk "t1" "public" redshiftClient LayoutType.table [],
           Layout.mk "t2" "public" redshiftClient LayoutType.view []],
         Layout.mk "audit" "audit" redshiftClient LayoutType.noneTy
          [Layout.mk "t3" "audit" redshiftClient LayoutType.table []]] :=
  (grouping_unique_per_schema redshiftClient []).2

/-- Claim C6: for the explicitly-typed dialect the node kind is computed
from the type column by the fixed mapping `"TABLE" -> table`,
`"VIEW" -> view`, anything else -> the untyped kind (`LayoutTypeNone`);
and a redshift row's leaf indeed carries `getLayoutType` of its type
column. -/
theorem getLayoutType_mapping :
    getLayoutType "TABLE" = LayoutType.table ∧
    getLayoutType "VIEW" = LayoutType.view ∧
    (∀ t : String, t ≠ "TABLE" → t ≠ "VIEW" →
      getLayoutType t = LayoutType.noneTy) ∧
    (∀ s n t : String,
      fetchPsqlLayouts (streamOf [(s, n, t)]) redshiftClient =
        FetchOutcome.ok [Layout.mk s s redshiftClient LayoutType.noneTy
          [Layout.mk n s redshiftClient (getLayoutType t) []]]) := by
  refine ⟨rfl, rfl, fun t h1 h2 => ?_, fun s n t => rfl⟩
  simp [getLayoutType, h1, h2]

/-- Witness for C6 at a concrete non-TABLE, non-VIEW string. -/
theorem getLayoutType_mapping_witness :
    getLayoutType "SEQUENCE" = LayoutType.noneTy :=
  getLayoutType_mapping.2.2.1 "SEQUENCE" (by decide) (by decide)

/-- Claim C7: for every dialect tag other than `redshift` (no explicit
object typing), every row's leaf node is classified `table`
unconditionally, whatever the rows contain beyond the schema and name
columns. -/
theorem untyped_dialect_all_tables (dbType : String) (h : dbType ≠ redshiftClient)
    (rs : List (String × String)) :
    ∃ l, fetchPsqlLayouts (streamOf2 rs) dbType = FetchOutcome.ok l ∧
      ∀ g ∈ l, ∀ c ∈ Layout.children g, Layout.typ c = LayoutType.table := by
  have hnil : (keysCM ([] : ChildMap)).Nodup := by simp [keysCM]
  have hnd := nodup_keysCM_buildMap dbType (rs.map fun p => (p.1, p.2, "")) [] hnil
  refine ⟨emitLayouts dbType (buildMap dbType [] (rs.map fun p => (p.1, p.2, ""))),
    by simpa [fetchPsqlLayouts] using fetchGo_streamOf2 dbType h rs [], ?_⟩
  intro g hg
  obtain ⟨⟨k, vs⟩, hkv, rfl⟩ := (mem_emitLayouts dbType _ g).mp hg
  intro c hc
  have hl := lookupCM_eq_of_mem_nodup _ k vs hnd hkv
  have hgd := lookupCM_buildMap_getD dbType (rs.map fun p => (p.1, p.2, "")) [] k
  rw [hl] at hgd
  simp only [lookupCM, Option.getD_some, Option.getD_none, List.nil_append] at hgd
  simp only [Layout.children] at hc
  rw [hgd] at hc
  obtain ⟨r, hr, rfl⟩ := List.mem_map.mp hc
  simp [leafOf, h, Layout.typ]

/-- Witness for C7 at the spec's example: dialect `postgres`, rows
`[("public","t1"),("public","t2")]`, child `t1` classified `table`. -/
theorem untyped_dialect_all_tables_witness :
    Layout.typ (Layout.mk "t1" "public" "postgres" LayoutType.table []) =
      LayoutType.table := by
  obtain ⟨l, h1, h2⟩ :=
    untyped_dialect_all_tables "postgres" (by decide) [("public", "t1"), ("public", "t2")]
  have h0 : fetchPsqlLayouts (streamOf2 [("public", "t1"), ("public", "t2")])
      "postgres" =
      FetchOutcome.ok [Layout.mk "public" "public" "postgres" LayoutType.noneTy
        [Layout.mk "t1" "public" "postgres" LayoutType.table [],
         Layout.mk "t2" "public" "postgres" LayoutType.table []]] := rfl
  rw [h0] at h1
  injection h1 with h1
  subst h1
  have hmem : Layout.mk "t1" "public" "postgres" LayoutType.table [] ∈
      Layout.children (Layout.mk "public" "public" "postgres" LayoutType.noneTy
        [Layout.mk "t1" "public" "postgres" LayoutType.table [],
         Layout.mk "t2" "public" "postgres" LayoutType.table []]) := by
    simp [Layout.children]
  exact h2 _ (List.mem_singleton.mpr rfl) _ hmem

/-- Claim C8 is refuted in its second half: a schema-group node DOES carry
a parent-schema reference of its own — the source sets `Schema: k` on the
group node, so the group named `public` carries `Schema = "public"` (its
own name), not an absent/empty reference. -/
theorem group_self_schema_cex :
    fetchPsqlLayouts (streamOf [("public", "t1", "TABLE")]) redshiftClient =
      FetchOutcome.ok
        [Layout.mk "public" "public" redshiftClient LayoutType.noneTy
          [Layout.mk "t1" "public" redshiftClient LayoutType.table []]] ∧
    Layout.schema (Layout.mk "public" "public" redshiftClient LayoutType.noneTy
      [Layout.mk "t1" "public" redshiftClient LayoutType.table []]) = "public" ∧
    ("public" : String) ≠ "" :=
  ⟨rfl, rfl, by decide⟩

/-- Claim C8 amended: in every tree produced by `fetchPsqlLayouts` on a
well-formed stream, each leaf's parent-schema field matches exactly one
schema-group node's name (group names are duplicate-free, and the leaf's
schema occurs among them exactly once); but schema-group nodes are NOT
reference-free — each group carries its own name as its `Schema` field. -/
theorem leaf_schema_matches_group_amended (dbType : String) (rs : List MetaRow) :
    ∃ l, fetchPsqlLayouts (streamOf rs) dbType = FetchOutcome.ok l ∧
      (l.map Layout.name).Nodup ∧
      (∀ g ∈ l, Layout.schema g = Layout.name g) ∧
      (∀ g ∈ l, ∀ c ∈ Layout.children g,
        Layout.schema c = Layout.name g ∧
        (l.map Layout.name).count (Layout.schema c) = 1) := by
  obtain ⟨l, h1, h2, h3, h4, h5⟩ := fetchPsqlLayouts_spec dbType rs
  refine ⟨l, h1, h2, fun g hg => (h4 g hg).1, fun g hg c hc => ?_⟩
  rw [(h4 g hg).2.2.2] at hc
  obtain ⟨r, hr, rfl⟩ := List.mem_map.mp hc
  have hr1 : r.1 = Layout.name g := by
    simpa using (List.mem_filter.mp hr).2
  have hsch : Layout.schema (leafOf dbType r) = r.1 := rfl
  refine ⟨hsch.trans hr1, ?_⟩
  rw [hsch, hr1]
  exact List.count_eq_one_of_mem h2 (List.mem_map_of_mem Layout.name hg)

/-- Witness for C8's amended claim at a concrete one-row input: the leaf's
schema value occurs exactly once among the group names. -/
theorem leaf_schema_matches_group_amended_witness :
    (([Layout.mk "public" "public" redshiftClient LayoutType.noneTy
        [Layout.mk "t1" "public" redshiftClient LayoutType.table []]].map
      Layout.name).count "public") = 1 := by
  obtain ⟨l, h1, h2, h3, h4⟩ :=
    leaf_schema_matches_group_amended redshiftClient [("public", "t1", "TABLE")]
  have h0 : fetchPsqlLayouts (streamOf [("public", "t1", "TABLE")]) redshiftClient =
      FetchOutcome.ok
        [Layout.mk "public" "public" redshiftClient LayoutType.noneTy
          [Layout.mk "t1" "public" redshiftClient LayoutType.table []]] := rfl
  rw [h0] at h1
  injection h1 with h1
  subst h1
  have hmem : Layout.mk "t1" "public" redshiftClient LayoutType.table [] ∈
      Layout.children (Layout.mk "public" "public" redshiftClient LayoutType.noneTy
        [Layout.mk "t1" "public" redshiftClient LayoutType.table []]) := by
    simp [Layout.children]
  have := h4 _ (List.mem_singleton.mpr rfl) _ hmem
  simpa [Layout.schema] using this.2

/-- Claim C10: on every error-free, well-formed row sequence the builder
neither drops nor duplicates rows — each group's children are exactly the
leaf nodes of that group's rows (so each input row yields exactly one leaf,
in the group keyed by its schema column), the group names are exactly the
input's schema values, the total number of leaves across all groups equals
the number of input rows, and every node (group and leaf alike) carries the
dialect tag as its `Database` field. -/
theorem no_drop_no_dup (dbType : String) (rs : List MetaRow) :
    ∃ l, fetchPsqlLayouts (streamOf rs) dbType = FetchOutcome.ok l ∧
      (l.map fun g => (Layout.children g).length).sum = rs.length ∧
      (∀ k, k ∈ l.map Layout.name ↔ k ∈ rs.map fun r => r.1) ∧
      (∀ g ∈ l, Layout.children g =
        (rs.filter fun r => r.1 = Layout.name g).map (leafOf dbType)) ∧
      (∀ g ∈ l, Layout.database g = dbType ∧
        ∀ c ∈ Layout.children g, Layout.database c = dbType) := by
  obtain ⟨l, h1, h2, h3, h4, h5⟩ := fetchPsqlLayouts_spec dbType rs
  refine ⟨l, h1, h5, h3, fun g hg => (h4 g hg).2.2.2,
    fun g hg => ⟨(h4 g hg).2.1, ?_⟩⟩
  intro c hc
  rw [(h4 g hg).2.2.2] at hc
  obtain ⟨r, hr, rfl⟩ := List.mem_map.mp hc
  rfl

/-- Witness for C10 at a concrete one-row input: one leaf in total. -/
theorem no_drop_no_dup_witness :
    (([Layout.mk "a" "a" redshiftClient LayoutType.noneTy
        [Layout.mk "b" "a" redshiftClient LayoutType.table []]].map
      fun g => (Layout.children g).length).sum) = 1 := by
  obtain ⟨l, h1, h2, h3, h4, h5⟩ := no_drop_no_dup redshiftClient [("a", "b", "TABLE")]
  have h0 : fetchPsqlLayouts (streamOf [("a", "b", "TABLE")]) redshiftClient =
      FetchOutcome.ok
        [Layout.mk "a" "a" redshiftClient LayoutType.noneTy
          [Layout.mk "b" "a" redshiftClient LayoutType.table []]] := rfl
  rw [h0] at h1
  injection h1 with h1
  subst h1
  exact h2

end Dbee
